import Mathlib

/-
Verification of the conversation-buffer, agent-loop, stuck-detection and
think-step logic of the OpenManusWebUI agent core.

The Lean definitions below are a shallow embedding of the Python sources:
  app/schema.py          (Message, Memory and its history optimization)
  app/agent/base.py      (BaseAgent.run, state_context, is_stuck)
  app/agent/toolcall.py  (ToolCallAgent.think)

Python strings are modelled as Lean String values, with the Python string
operations (len, slicing, split, join, strip, startswith, membership)
re-implemented over the underlying character list so that they follow
Python's code-point semantics and evaluate inside the kernel.  Python
truthiness of optional strings / lists is modelled explicitly.  The
functions str.strip () and int (x * 0.3) are modelled as ASCII-whitespace
trimming and floor (3 * x / 10) respectively, which agree with Python on
every input considered in this development.
-/

set_option maxRecDepth 10000

namespace OMW

/-! ## Python string primitives -/

/-- Python string concatenation, reduced over the character lists. -/
def pyCat (a b : String) : String := String.mk (a.data ++ b.data)

/-- Python len (s): number of code points. -/
def pyLen (s : String) : Nat := s.data.length

/-- Worker for pySplit. The fuel argument is only there to make the
recursion structural; it is always called with enough fuel. -/
def splitCharsF (sep : List Char) : Nat → List Char → List Char → List (List Char)
  | _, [], acc => [acc.reverse]
  | 0, l, acc => [acc.reverse ++ l]
  | fuel + 1, c :: cs, acc =>
    if sep.isPrefixOf (c :: cs) then
      acc.reverse :: splitCharsF sep fuel (List.drop (sep.length - 1) cs) []
    else splitCharsF sep fuel cs (c :: acc)

/-- Python s.split (sep) for a non-empty separator. -/
def pySplit (s sep : String) : List String :=
  (splitCharsF sep.data (s.data.length + 1) s.data []).map String.mk

/-- Python s[:n]. -/
def pyTake (s : String) (n : Nat) : String := String.mk (s.data.take n)

/-- Python s[-n:] for n > 0. -/
def pyTakeLast (s : String) (n : Nat) : String :=
  String.mk (s.data.drop (s.data.length - n))

/-- ASCII whitespace as stripped by Python str.strip (). -/
def isPySpace (c : Char) : Bool :=
  c == ' ' || c == '\t' || c == '\n' || c == '\r' || c == '\x0b' || c == '\x0c'

/-- Python s.strip (). -/
def pyStrip (s : String) : String :=
  String.mk (((s.data.dropWhile isPySpace).reverse.dropWhile isPySpace).reverse)

/-- Python s.startswith (pre). -/
def pyStartsWith (s pre : String) : Bool := pre.data.isPrefixOf s.data

/-- Worker for pyContains. -/
def containsAux (sub : List Char) : List Char → Bool
  | [] => sub.isEmpty
  | c :: cs => sub.isPrefixOf (c :: cs) || containsAux sub cs

/-- Python sub in s. -/
def pyContains (s sub : String) : Bool := sub.isEmpty || containsAux sub.data s.data

/-- Python sep.join (parts). -/
def pyJoin (sep : String) : List String → String
  | [] => ""
  | [x] => x
  | x :: xs => pyCat x (pyCat sep (pyJoin sep xs))

/-! ## Data model (app/schema.py)

Message roles; AgentState is defined with the run model further down. -/

inductive Role where
  | system
  | user
  | assistant
  | tool
deriving DecidableEq, Repr

instance : BEq Role := ⟨fun a b => decide (a = b)⟩

/-- schema.Function: the name/arguments payload of a tool call. -/
structure FunctionCall where
  name : String
  arguments : String
deriving DecidableEq, Repr

/-- schema.ToolCall. -/
structure ToolCall where
  id : String
  type : String := "function"
  function : FunctionCall
deriving DecidableEq, Repr

/-- schema.Message.  The importance field is Python int. -/
structure Message where
  role : Role
  content : Option String := none
  tool_calls : Option (List ToolCall) := none
  name : Option String := none
  tool_call_id : Option String := none
  importance : Int := 5
deriving DecidableEq, Repr

/-- Python truthiness of an optional string (None and "" are falsy). -/
def strTruthy : Option String → Bool
  | none => false
  | some s => !(s == "")

/-- Python truthiness of an optional tool-call list (None and [] are falsy). -/
def listTruthy : Option (List ToolCall) → Bool
  | none => false
  | some l => !l.isEmpty

/-- Python msg.content or "". -/
def Message.contentStr (m : Message) : String := m.content.getD ""

/-- schema.Message.user_message: user messages get importance 8. -/
def Message.user_message (content : String) : Message :=
  { role := .user, content := some content, importance := 8 }

/-- schema.Message.system_message: system messages get importance 10. -/
def Message.system_message (content : String) : Message :=
  { role := .system, content := some content, importance := 10 }

/-- schema.Message.assistant_message: assistant messages get importance 5. -/
def Message.assistant_message (content : Option String) : Message :=
  { role := .assistant, content := content, importance := 5 }

/-- schema.Message.tool_message: importance 7 for long payloads, else 6. -/
def Message.tool_message (content : String) (name : String) (tool_call_id : String) :
    Message :=
  { role := .tool, content := some content, name := some name,
    tool_call_id := some tool_call_id,
    importance := if !(content == "") && pyLen content > 500 then 7 else 6 }

/-- schema.Message.from_tool_calls: assistant message carrying tool calls,
importance 7. -/
def Message.from_tool_calls (tool_calls : List ToolCall) (content : Option String) :
    Message :=
  { role := .assistant, content := content, tool_calls := some tool_calls,
    importance := 7 }

/-- schema.Memory and its pydantic field defaults. -/
structure Memory where
  messages : List Message := []
  max_messages : Nat := 100
  context_length_limit : Nat := 8192
  optimize_history : Bool := true
  preserve_important : Bool := true
  summarize_tools : Bool := true
deriving DecidableEq, Repr

/-! ## Memory._summarize_tool_output and Memory._optimize_history -/

/-- schema.Memory._summarize_tool_output.  Note that the function is pure in
self; the structure of the Python conditionals is preserved (the initial
"not content" test is subsumed by the < 300 length test). -/
def summarizeToolOutput (content : String) : String :=
  if pyLen content < 300 then content
  else if pyStartsWith content "Observed output of cmd"
          && (pySplit content "\n").length > 6 then
    let lines := pySplit content "\n"
    let header := lines.headD ""
    let body := pyJoin "\n" ((lines.drop 1).take 2)
    pyCat header (pyCat "\n" (pyCat body
      (pyCat "\n... (略, 元の出力: " (pyCat (toString lines.length) "行)"))))
  else if pyLen content > 500 then
    let shortVersion := pyStrip (pyTake content 200)
    let tailPart := pyStrip (pyTakeLast content 100)
    pyCat shortVersion (pyCat "\n...\n" (pyCat tailPart
      (pyCat "\n(略, 元の長さ: " (pyCat (toString (pyLen content)) "文字)"))))
  else content

/-- sum (len (msg.content or "") for msg in messages). -/
def currentLength (msgs : List Message) : Nat :=
  (msgs.map (fun m => pyLen m.contentStr)).sum

/-- recent_count = min (5, len (messages) // 3). -/
def recentCount (n : Nat) : Nat := min 5 (n / 3)

/-- Memory._optimize_history's preserved_indices as a predicate on an index
and the message originally stored there: index 0 when it is the first user
message, the most recent recent_count indices, and, when preserve_important
is set, any message of importance at least 8. -/
def preservedIdx (preserveImportant : Bool) (msgs : List Message) (i : Nat)
    (msg : Message) : Bool :=
  (i == 0 && (match msgs with
    | m0 :: _ => m0.role == Role.user
    | [] => false))
  || (decide (msgs.length - recentCount msgs.length ≤ i))
  || (preserveImportant && decide (msg.importance ≥ 8))

/-- Roles in order of first appearance: the iteration order of the Python
dict grouped_msgs. -/
def rolesInOrder (msgs : List Message) : List Role :=
  msgs.foldl (fun acc m => if acc.contains m.role then acc else acc ++ [m.role]) []

/-- Stable insertion by ascending importance; models Python's stable sort
with key importance. -/
def insertByImportance (p : Nat × Message) :
    List (Nat × Message) → List (Nat × Message)
  | [] => [p]
  | q :: rest =>
    if p.2.importance ≤ q.2.importance then p :: q :: rest
    else q :: insertByImportance p rest

/-- Stable sort by ascending importance (insertion sort, equal keys keep
their original relative order, exactly like Python list.sort). -/
def sortByImportance (l : List (Nat × Message)) : List (Nat × Message) :=
  l.foldr insertByImportance []

/-- The candidates contributed by one role group: its non-preserved indexed
messages, sorted by ascending importance. -/
def roleCandidates (preserveImportant : Bool) (msgs : List Message) (r : Role) :
    List (Nat × Message) :=
  sortByImportance ((msgs.enum.filter
    (fun p => p.2.role == r && !(preservedIdx preserveImportant msgs p.1 p.2))))

/-- to_optimize after the final sorted (..., key importance): tool and
assistant role groups in dict order, concatenated, stably re-sorted by
ascending importance. -/
def toOptimize (preserveImportant : Bool) (msgs : List Message) :
    List (Nat × Message) :=
  sortByImportance
    (((rolesInOrder msgs).filter
        (fun r => r == Role.tool || r == Role.assistant)).flatMap
      (roleCandidates preserveImportant msgs))

/-- One iteration of the optimization loop body on candidate index i:
re-reads messages[i] from the live list, skips it when its content is falsy,
summarizes tool messages (when summarize_tools), otherwise truncates contents
longer than 200 characters to max (150, int (len * 0.3)) plus an elision
note; chars_reduced is updated by the (possibly negative) length difference. -/
def applyShrink (summarizeTools : Bool) (msgs : List Message) (reduced : Int)
    (i : Nat) : List Message × Int :=
  match msgs.get? i with
  | none => (msgs, reduced)
  | some cur =>
    if !(strTruthy cur.content) then (msgs, reduced)
    else
      let c := cur.contentStr
      if cur.role == Role.tool && summarizeTools then
        let c2 := summarizeToolOutput c
        (msgs.set i { cur with content := some c2 },
          reduced + ((pyLen c : Int) - (pyLen c2 : Int)))
      else if pyLen c > 200 then
        let maxLen := max 150 (3 * pyLen c / 10)
        let c2 := pyCat (pyTake c maxLen)
          (pyCat "... (略, 元の長さ: " (pyCat (toString (pyLen c)) "文字)"))
        (msgs.set i { cur with content := some c2 },
          reduced + ((pyLen c : Int) - (pyLen c2 : Int)))
      else (msgs, reduced)

/-- The optimization loop: process candidates in order, stopping (Python
break, modelled as skipping every remaining candidate) once chars_reduced
has reached reduction_needed. -/
def optFold (summarizeTools : Bool) (needed : Int)
    (cands : List (Nat × Message)) (st : List Message × Int) :
    List Message × Int :=
  cands.foldl
    (fun st p =>
      if st.2 ≥ needed then st
      else applyShrink summarizeTools st.1 st.2 p.1)
    st

/-- reduction_needed = current_length - context_length_limit + 500. -/
def reductionNeeded (m : Memory) : Int :=
  (currentLength m.messages : Int) - (m.context_length_limit : Int) + 500

/-- schema.Memory._optimize_history. -/
def Memory.optimizeHistory (m : Memory) : Memory :=
  if currentLength m.messages ≤ m.context_length_limit then m
  else
    { m with
      messages :=
        (optFold m.summarize_tools (reductionNeeded m)
          (toOptimize m.preserve_important m.messages) (m.messages, 0)).1 }

/-! ## Memory.add_message -/

/-- The same-role coalescing branch of add_message, applied to the previous
last message and the incoming one: contents concatenated with a newline when
both are truthy (the incoming content alone when only it is), tool-call
lists extended, importance raised to the max. -/
def coalesce (prev msg : Message) : Message :=
  let p1 :=
    if strTruthy msg.content then
      if strTruthy prev.content then
        { prev with content := some (pyCat prev.contentStr (pyCat "\n" msg.contentStr)) }
      else { prev with content := msg.content }
    else prev
  let p2 :=
    if listTruthy msg.tool_calls then
      if listTruthy p1.tool_calls then
        { p1 with tool_calls := some (p1.tool_calls.getD [] ++ msg.tool_calls.getD []) }
      else { p1 with tool_calls := msg.tool_calls }
    else p1
  { p2 with importance := max p2.importance msg.importance }

/-- The message list add_message builds before the optimization pass:
coalesce same-role inserts into the previous message, otherwise append. -/
def Memory.newMessages (m : Memory) (msg : Message) : List Message :=
  match m.messages.getLast? with
  | some last =>
    if last.role == msg.role then m.messages.dropLast ++ [coalesce last msg]
    else m.messages ++ [msg]
  | none => m.messages ++ [msg]

/-- schema.Memory.add_message: coalesce or append (newMessages above), then
run _optimize_history when the optimize_history flag is set.  Note the
max_messages field is never read. -/
def Memory.add_message (m : Memory) (msg : Message) : Memory :=
  if m.optimize_history then ({ m with messages := m.newMessages msg }).optimizeHistory
  else { m with messages := m.newMessages msg }

/-- schema.Memory.add_messages: add one by one. -/
def Memory.add_messages (m : Memory) (msgs : List Message) : Memory :=
  msgs.foldl Memory.add_message m

/-! ## BaseAgent.is_stuck (app/agent/base.py)

The method reads self.memory.messages, self.recent_tools_used and
self.duplicate_threshold; those are the three parameters here. -/

/-- Python len (set (recent[-3:])) == 1 for a list of length at least 3. -/
def lastThreeEqual (l : List String) : Bool :=
  match l.drop (l.length - 3) with
  | a :: rest => rest.all (fun b => b == a)
  | [] => false

/-- BaseAgent.is_stuck: fewer than 2 messages or a falsy last content give
false; then the duplicate count of assistant messages with content equal to
the last message's content is taken over all but the last message (the
Python reversed iteration does not affect the count); the tool-repetition
check fires first, then the duplicate count is compared with the
threshold. -/
def isStuck (messages : List Message) (recentToolsUsed : List String)
    (duplicateThreshold : Nat) : Bool :=
  if messages.length < 2 then false
  else
    match messages.getLast? with
    | none => false
    | some last =>
      if !(strTruthy last.content) then false
      else
        let dup := (messages.dropLast.filter
          (fun msg => msg.role == Role.assistant && msg.content == last.content)).length
        if recentToolsUsed.length ≥ 3 && lastThreeEqual recentToolsUsed then true
        else dup ≥ duplicateThreshold

/-! ## BaseAgent.run (app/agent/base.py)

The run loop is modelled as a fuelled recursion (fuel = max_steps -
current_step, matching the while guard current_step < max_steps).  The
abstract subclass hook self.step () is an oracle: for each step number it
either returns a result string together with the agent state it leaves
behind (a step may set state to FINISHED via a special tool), or raises.
The cancellation event is an oracle polled at the top of each iteration.

Omitted from the model, with justification:
- the progress-tracking blocks (progress file creation/reading, task and
  file bookkeeping): they are guarded by try/except, only append text to
  next_step_prompt or mutate the bookkeeping fields current_task_id,
  completed_tasks and created_files, and feed into neither the agent
  state, nor current_step, nor the results list, nor exception flow;
- the accuracy monitor and the stuck check (is_stuck is modelled separately
  above): inside run they only mutate next_step_prompt and the
  accuracy_issues_detected / recovery_attempts counters, with the default
  accuracy_monitor_interval > 0 they cannot raise, and they do not affect
  the observables the claims mention. -/

/-- Agent execution states (schema.AgentState). -/
inductive AgentState where
  | idle
  | running
  | finished
  | error
deriving DecidableEq, Repr

instance : BEq AgentState := ⟨fun a b => decide (a = b)⟩

/-- Outcome of one await self.step () call. -/
inductive StepEffect where
  | ret (newState : AgentState) (result : String)
  | throw (exn : String)
deriving DecidableEq, Repr

/-- The external oracles run interacts with: the step hook indexed by the
step number, and the cancellation flag polled at the top of an iteration
(indexed by the current_step value at the moment of the poll). -/
structure Externals where
  step : Nat → StepEffect
  cancelled : Nat → Bool

/-- The exceptions run can raise. -/
inductive RunError where
  | cannotRun (s : AgentState)
  | fromStep (exn : String)
deriving DecidableEq, Repr

/-- The loop-local state of run. -/
structure LoopSt where
  state : AgentState
  currentStep : Nat
  recentTools : List String
  results : List String
deriving DecidableEq, Repr

/-- How the while loop ended. -/
inductive LoopExit where
  | normal (st : LoopSt)
  | cancelledExit (st : LoopSt)
  | raised (st : LoopSt) (exn : String)
deriving DecidableEq, Repr

/-- The recent_tools_used update at the end of a loop iteration: when the
step result contains "cmd `", the backtick-delimited tool name after its
first occurrence is appended (when non-empty) and the window is capped at
5 by dropping the front. -/
def updateRecentTools (recent : List String) (stepResult : String) : List String :=
  if pyContains stepResult "cmd `" then
    let tool := ((pySplit ((pySplit stepResult "cmd `").drop 1 |>.headD "") "`").headD "")
    if !(tool == "") then
      let r := recent ++ [tool]
      if r.length > 5 then r.drop 1 else r
    else recent
  else recent

/-- The f-string "Step {n}: {result}" appended to the results list. -/
def stepLine (n : Nat) (r : String) : String :=
  pyCat "Step " (pyCat (toString n) (pyCat ": " r))

/-- The f-string "Terminated: Reached max steps ({max_steps})". -/
def maxStepsMarker (k : Nat) : String :=
  pyCat "Terminated: Reached max steps (" (pyCat (toString k) ")")

/-- The early-return string of a cancelled run. -/
def cancelMessage : String := "操作は取り消されました"

/-- The sentinel returned when the results list is empty. -/
def noStepsSentinel : String := "No steps executed"

/-- The while loop of BaseAgent.run.  Fuel equals max_steps - current_step,
so fuel 0 is exactly the failure of the guard current_step < max_steps. -/
def runLoop (ext : Externals) : Nat → LoopSt → LoopExit
  | 0, st => .normal st
  | fuel + 1, st =>
    if st.state == AgentState.finished then .normal st
    else if ext.cancelled st.currentStep then .cancelledExit st
    else
      let n := st.currentStep + 1
      match ext.step n with
      | .throw e => .raised { st with currentStep := n } e
      | .ret ns r =>
        runLoop ext fuel
          { state := ns, currentStep := n,
            recentTools := updateRecentTools st.recentTools r,
            results := st.results ++ [stepLine n r] }

/-- The agent fields BaseAgent.run interacts with. -/
structure AgentB where
  state : AgentState := .idle
  currentStep : Nat := 0
  maxSteps : Nat := 100
  memory : Memory := {}
  recentToolsUsed : List String := []
deriving DecidableEq, Repr

/-- The truthy-request handling at the top of run: a non-empty request is
appended to memory as a user message. -/
def applyRequest (a : AgentB) (request : Option String) : AgentB :=
  match request with
  | some r =>
    if r == "" then a
    else { a with memory := a.memory.add_message (Message.user_message r) }
  | none => a

/-- The body of run below the state guard: previous_state is the (IDLE)
state at entry, the loop starts in RUNNING, and the finally clause writes
previous_state back into the agent on every exit path - including the
exceptional one, where it overwrites the ERROR just set by the except
clause before the exception escapes. -/
def runBody (a : AgentB) (ext : Externals) : AgentB × Except RunError String :=
  match runLoop ext (a.maxSteps - a.currentStep)
      { state := AgentState.running, currentStep := a.currentStep,
        recentTools := a.recentToolsUsed, results := [] } with
  | .raised st e =>
    ({ a with
        state := a.state
        currentStep := st.currentStep
        recentToolsUsed := st.recentTools }, .error (.fromStep e))
  | .cancelledExit st =>
    ({ a with
        state := a.state
        currentStep := st.currentStep
        recentToolsUsed := st.recentTools }, .ok cancelMessage)
  | .normal st =>
    let results :=
      if st.currentStep ≥ a.maxSteps then st.results ++ [maxStepsMarker a.maxSteps]
      else st.results
    ({ a with
        state := a.state
        currentStep := st.currentStep
        recentToolsUsed := st.recentTools },
      .ok (if results.isEmpty then noStepsSentinel else pyJoin "\n" results))

/-- BaseAgent.run: refuse any non-IDLE start state with RuntimeError
("Cannot run agent from state: ..."), then handle the request and run the
loop body wrapped in the state context. -/
def runB (a : AgentB) (request : Option String) (ext : Externals) :
    AgentB × Except RunError String :=
  if !(a.state == AgentState.idle) then (a, .error (.cannotRun a.state))
  else runBody (applyRequest a request) ext

/-! ## ToolCallAgent.think (app/agent/toolcall.py)

The model call await self.llm.ask_tool (...) is an external oracle: the
resp argument is its outcome (a response, or a raised exception).  The
system prompt and tool schemas are only forwarded to that oracle, so they
are not part of the agent model here.  Logging statements are omitted.
The Python code evaluates self.current_step % self.step_review_interval,
which would raise for a zero interval; theorems below therefore assume a
positive interval (the field defaults to 5). -/

/-- ToolCallAgent.tool_choices values. -/
inductive ToolChoice where
  | none
  | auto
  | required
deriving DecidableEq, Repr

instance : BEq ToolChoice := ⟨fun a b => decide (a = b)⟩

/-- The parsed model response: optional free text and optional tool calls
(the tool_calls attribute of the response message, which may be absent). -/
structure LLMResponse where
  content : Option String := none
  tool_calls : Option (List ToolCall) := none
deriving DecidableEq, Repr

/-- The ToolCallAgent fields think interacts with.  The Python tool_calls
field defaults to [], which has the same (falsy) truthiness as none here;
after the model call it is overwritten with response.tool_calls, which may
be None. -/
structure TCAgent where
  memory : Memory := {}
  tool_calls : Option (List ToolCall) := Option.none
  tool_choices : ToolChoice := .auto
  next_step_prompt : Option String := Option.none
  current_step : Nat := 0
  max_steps : Nat := 100
  adaptive_planning : Bool := true
  step_review_interval : Nat := 5
deriving DecidableEq, Repr

/-- ToolCallAgent._estimate_context_length: content lengths, plus per tool
call the name and argument lengths plus 50, plus 20 per message. -/
def estimateContextLength (msgs : List Message) : Nat :=
  msgs.foldl
    (fun total msg =>
      let t1 := total + (if strTruthy msg.content then pyLen msg.contentStr else 0)
      let t2 :=
        if listTruthy msg.tool_calls then
          t1 + ((msg.tool_calls.getD []).map
            (fun call => pyLen call.function.name + pyLen call.function.arguments + 50)).sum
        else t1
      t2 + 20)
    0

/-- The tool_usage dict of _analyze_memory_state: counts per tool name over
tool messages with a truthy name, in first-appearance order. -/
def bumpUsage (acc : List (String × Nat)) (n : String) : List (String × Nat) :=
  if acc.any (fun p => p.1 == n) then
    acc.map (fun p => if p.1 == n then (p.1, p.2 + 1) else p)
  else acc ++ [(n, 1)]

/-- Accumulate the tool_usage dict over the messages. -/
def toolUsage (msgs : List Message) : List (String × Nat) :=
  msgs.foldl
    (fun acc msg =>
      if msg.role == Role.tool && strTruthy msg.name then
        bumpUsage acc (msg.name.getD "")
      else acc)
    []

/-- ToolCallAgent._analyze_memory_state. -/
def analyzeMemoryState (msgs : List Message) : String :=
  let lastUserMsg : Option String :=
    match msgs.reverse.find? (fun m => m.role == Role.user) with
    | some m => m.content
    | Option.none => Option.none
  let usage := toolUsage msgs
  let analysis := [pyCat "- 会話履歴: " (pyCat (toString msgs.length) "メッセージ"),
    pyCat "- 推定コンテキスト長: 約"
      (pyCat (toString (estimateContextLength msgs)) "文字")]
  let analysis :=
    if !usage.isEmpty then
      analysis ++ [pyCat "- 使用ツール: " (pyJoin ", "
        (usage.map (fun p => pyCat p.1 (pyCat "(" (pyCat (toString p.2) "回)")))))]
    else analysis
  let analysis :=
    if strTruthy lastUserMsg then
      let lu := lastUserMsg.getD ""
      let lu := if pyLen lu > 100 then pyCat (pyTake lu 100) "..." else lu
      analysis ++ [pyCat "- 最新の指示: " lu]
    else analysis
  pyJoin "\n" analysis

/-- ToolCallAgent._review_progress: appends (or installs) a progress note
plus a focus instruction on next_step_prompt; nothing else changes. -/
def reviewProgress (currentStep maxSteps : Nat) (msgs : List Message)
    (prompt : Option String) : Option String :=
  let summary := pyCat "現在、ステップ" (pyCat (toString currentStep)
    (pyCat "/" (pyCat (toString maxSteps) "を実行中です。")))
  let progressNote := pyCat "\n\n# 進捗確認（ステップ" (pyCat (toString currentStep)
    (pyCat "）\n" (pyCat summary (pyCat "\n" (pyCat (analyzeMemoryState msgs) "\n\n")))))
  let focus := "これまでの進捗を踏まえ、問題の根本的な解決に焦点を当ててください。"
  if strTruthy prompt then some (pyCat (prompt.getD "") (pyCat progressNote focus))
  else some (pyCat progressNote focus)

/-- A line Python's startswith tuple check classifies as a directive. -/
def lineIsDirective (line : String) : Bool :=
  let stripped := pyStrip line
  pyStartsWith stripped "#" || pyStartsWith stripped "*" || pyStartsWith stripped "-"
    || pyStartsWith stripped "1." || pyStartsWith stripped "2."
    || pyStartsWith stripped "3." || pyStartsWith stripped ">"

/-- ToolCallAgent._optimize_next_step_prompt.  Note the Python quirk
lines[-footer_lines:] with footer_lines = 0 yields the whole list, modelled
explicitly. -/
def optimizeNextStepPrompt (promptOpt : Option String) : Option String :=
  if !(strTruthy promptOpt) || pyLen (promptOpt.getD "") ≤ 500 then promptOpt
  else
    let lines := pySplit (promptOpt.getD "") "\n"
    let headerLines := min 3 (lines.length / 4)
    let important := lines.take headerLines
    let important := important ++ (lines.drop headerLines).filter
      (fun line => lineIsDirective line || pyContains line "注意"
        || pyContains line "重要" || pyContains line "必須")
    let important :=
      if lines.length > headerLines + important.length then
        let footerLines := min 3 (lines.length / 5)
        important ++ (if footerLines == 0 then lines
          else lines.drop (lines.length - footerLines))
      else important
    if important.length < lines.length / 2 then
      let optimized := pyJoin "\n" important
      let optimized :=
        if decide (headerLines > 0) && decide (important.length > headerLines) then
          pyCat (pyJoin "\n" (important.take headerLines))
            (pyCat "\n...(中略)...\n" (pyJoin "\n" (important.drop headerLines)))
        else optimized
      some optimized
    else promptOpt

/-- The periodic self-review at the top of think (line 43): it only
rewrites next_step_prompt. -/
def thinkReviewStage (ag : TCAgent) : TCAgent :=
  if ag.adaptive_planning && decide (ag.current_step > 0)
      && (ag.current_step % ag.step_review_interval == 0) then
    let np := reviewProgress ag.current_step ag.max_steps ag.memory.messages
      ag.next_step_prompt
    { ag with next_step_prompt := np }
  else ag

/-- The next_step_prompt injection of think (lines 47-51): the (possibly
compacted) pending prompt is appended to the message list as a user turn
through the messages property setter - a plain list append that bypasses
add_message. -/
def thinkPromptStage (ag : TCAgent) : TCAgent :=
  if strTruthy ag.next_step_prompt then
    let effective :=
      if pyLen (ag.next_step_prompt.getD "") > 500 then
        (optimizeNextStepPrompt ag.next_step_prompt).getD ""
      else ag.next_step_prompt.getD ""
    { ag with memory := { ag.memory with
        messages := ag.memory.messages ++ [Message.user_message effective] } }
  else ag

/-- ToolCallAgent.think.  Returns the mutated agent and either the boolean
decision or the exception that escaped.  The model oracle fires after the
two stages above.  The try block begins only AFTER the model call, so a
model-call exception propagates as is; in this model nothing inside the try
block can raise, so the except clause that would record an assistant error
turn is unreachable. -/
def think (ag : TCAgent) (resp : Except String LLMResponse) :
    TCAgent × Except String Bool :=
  let ag := thinkPromptStage (thinkReviewStage ag)
  match resp with
  | .error e => (ag, .error e)
  | .ok response =>
    let ag := { ag with tool_calls := response.tool_calls }
    match ag.tool_choices with
    | .none =>
      if strTruthy response.content then
        ({ ag with memory :=
            ag.memory.add_message (Message.assistant_message response.content) },
          .ok true)
      else (ag, .ok false)
    | tc =>
      let assistantMsg :=
        if listTruthy ag.tool_calls then
          Message.from_tool_calls (ag.tool_calls.getD []) response.content
        else Message.assistant_message response.content
      let ag := { ag with memory := ag.memory.add_message assistantMsg }
      if tc == ToolChoice.required && !(listTruthy ag.tool_calls) then (ag, .ok true)
      else if tc == ToolChoice.auto && !(listTruthy ag.tool_calls) then
        (ag, .ok (strTruthy response.content))
      else (ag, .ok (listTruthy ag.tool_calls))

/-! ## Helper lemmas: the optimization pass preserves structure -/

/-- A Memory with all pydantic defaults. -/
def emptyMemory : Memory := {}

theorem applyShrink_length (s : Bool) (msgs : List Message) (r : Int) (i : Nat) :
    (applyShrink s msgs r i).1.length = msgs.length := by
  unfold applyShrink
  rcases h : msgs.get? i with _ | cur
  · rfl
  · simp only [h]
    split
    · rfl
    · split
      · simp [List.length_set]
      · split
        · simp [List.length_set]
        · rfl

theorem optFold_cons (s : Bool) (needed : Int) (p : Nat × Message)
    (rest : List (Nat × Message)) (st : List Message × Int) :
    optFold s needed (p :: rest) st =
      optFold s needed rest
        (if st.2 ≥ needed then st else applyShrink s st.1 st.2 p.1) := by
  rfl

theorem optFold_length (s : Bool) (needed : Int) :
    ∀ (cands : List (Nat × Message)) (st : List Message × Int),
      (optFold s needed cands st).1.length = st.1.length := by
  intro cands
  induction cands with
  | nil => intro st; rfl
  | cons p rest ih =>
    intro st
    rw [optFold_cons]
    rw [ih]
    split
    · rfl
    · exact applyShrink_length s st.1 st.2 p.1

theorem optimizeHistory_length (m : Memory) :
    (m.optimizeHistory).messages.length = m.messages.length := by
  unfold Memory.optimizeHistory
  split
  · rfl
  · exact optFold_length _ _ _ _

/-- When the aggregate content length is within the limit, the optimization
pass does nothing. -/
theorem optimizeHistory_of_le (m : Memory)
    (h : currentLength m.messages ≤ m.context_length_limit) :
    m.optimizeHistory = m := by
  unfold Memory.optimizeHistory
  simp [h]

theorem newMessages_length (m : Memory) (msg : Message) :
    m.messages.length ≤ (m.newMessages msg).length := by
  unfold Memory.newMessages
  rcases h : m.messages.getLast? with _ | last
  · simp
  · have hne : m.messages ≠ [] := by
      intro hnil
      rw [hnil] at h
      simp [List.getLast?] at h
    have hpos : 0 < m.messages.length := List.length_pos.mpr hne
    dsimp only
    split
    · simp only [List.length_append, List.length_dropLast, List.length_cons,
        List.length_nil]
      omega
    · simp

theorem add_message_messages (m : Memory) (msg : Message) :
    (m.add_message msg).messages =
      (if m.optimize_history then
        (({ m with messages := m.newMessages msg } : Memory).optimizeHistory).messages
      else m.newMessages msg) := by
  unfold Memory.add_message
  split
  · rfl
  · rfl

theorem optimizeHistory_messages (m : Memory) :
    (m.optimizeHistory).messages =
      (if currentLength m.messages ≤ m.context_length_limit then m.messages
       else (optFold m.summarize_tools (reductionNeeded m)
         (toOptimize m.preserve_important m.messages) (m.messages, 0)).1) := by
  unfold Memory.optimizeHistory
  split
  · rfl
  · rfl

theorem add_message_length (m : Memory) (msg : Message) :
    m.messages.length ≤ ((m.add_message msg).messages).length := by
  rw [add_message_messages]
  split
  · rw [optimizeHistory_length]
    exact newMessages_length m msg
  · exact newMessages_length m msg

/-! ## C1: the max_messages cap -/

/-- The 101 alternating user/assistant inserts of spec Scenario A. -/
def altMsgs (n : Nat) : List Message :=
  (List.range n).map (fun i =>
    if i % 2 == 0 then Message.user_message "m" else Message.assistant_message (some "m"))

/-- C1 counterexample: inserting 101 alternating user/assistant turns into
the default buffer (max_messages = 100) leaves 101 turns, the first turn
still present - nothing is evicted, contradicting the claimed hard cap. -/
theorem c1_counterexample :
    emptyMemory.max_messages = 100 ∧
    (emptyMemory.add_messages (altMsgs 101)).messages.length = 101 ∧
    (emptyMemory.add_messages (altMsgs 101)).messages.head? =
      some (Message.user_message "m") := by
  refine ⟨rfl, rfl, rfl⟩

/-- C1 amended: add_message never consults max_messages (the resulting
message list is the same for every value of the field) and never drops a
turn (the count never decreases); consequently 101 alternating inserts into
a buffer with max_messages = 100 leave all 101 turns in order, the first
turn still present. -/
theorem c1_theorem :
    (∀ (m : Memory) (msg : Message) (k : Nat),
      (({ m with max_messages := k }).add_message msg).messages =
        (m.add_message msg).messages) ∧
    (∀ (m : Memory) (msg : Message),
      m.messages.length ≤ ((m.add_message msg).messages).length) ∧
    (emptyMemory.add_messages (altMsgs 101)).messages.length = 101 := by
  refine ⟨?_, add_message_length, rfl⟩
  intro m msg k
  rw [add_message_messages, add_message_messages,
    show ({ m with max_messages := k } : Memory).optimize_history = m.optimize_history
      from rfl]
  split
  · rw [optimizeHistory_messages, optimizeHistory_messages]
    rfl
  · rfl

/-! ## C8 and C10: the stuck detector -/

/-- The duplicate count of is_stuck: assistant messages among all but the
last message whose content equals the given content. -/
def dupCount (ms : List Message) (c : String) : Nat :=
  (ms.filter (fun msg => msg.role == Role.assistant && msg.content == some c)).length

theorem strTruthy_some_ne {c : String} (h : c ≠ "") : strTruthy (some c) = true := by
  simp [strTruthy, h]

/-- Reduction of is_stuck over a buffer with an explicit last element whose
content is truthy. -/
theorem isStuck_reduce (ms : List Message) (last : Message) (rt : List String)
    (th : Nat) (h2 : 2 ≤ (ms ++ [last]).length)
    (htruthy : strTruthy last.content = true) :
    isStuck (ms ++ [last]) rt th =
      if (decide (rt.length ≥ 3) && lastThreeEqual rt) = true then true
      else decide ((ms.filter (fun msg =>
        msg.role == Role.assistant && msg.content == last.content)).length ≥ th) := by
  unfold isStuck
  rw [if_neg (by omega)]
  rw [List.getLast?_concat]
  dsimp only
  rw [htruthy]
  simp only [Bool.not_true, Bool.false_eq_true, if_false]
  rw [List.dropLast_concat]

/-- C8: with the default threshold 3 and the buffer ending in an assistant
turn with non-empty text c, is_stuck is true as soon as 3 earlier assistant
turns carry exactly the text c, and false when only 2 do and the
tool-repetition window does not fire. -/
theorem c8_theorem (ms : List Message) (last : Message) (rt : List String)
    (c : String) (hc : c ≠ "") (hrole : last.role = Role.assistant)
    (hcontent : last.content = some c) :
    (dupCount ms c ≥ 3 → isStuck (ms ++ [last]) rt 3 = true) ∧
    (dupCount ms c = 2 → ¬(rt.length ≥ 3 ∧ lastThreeEqual rt = true) →
      isStuck (ms ++ [last]) rt 3 = false) := by
  have htruthy : strTruthy last.content = true := by
    rw [hcontent]; exact strTruthy_some_ne hc
  have hfil : dupCount ms c ≤ ms.length := List.length_filter_le _ _
  have hred : ∀ (hms : 1 ≤ ms.length),
      isStuck (ms ++ [last]) rt 3 =
        if (decide (rt.length ≥ 3) && lastThreeEqual rt) = true then true
        else decide ((ms.filter (fun msg =>
          msg.role == Role.assistant && msg.content == some c)).length ≥ 3) := by
    intro hms
    have h2 : 2 ≤ (ms ++ [last]).length := by
      simp only [List.length_append, List.length_cons, List.length_nil]
      omega
    have h := isStuck_reduce ms last rt 3 h2 htruthy
    simp only [hcontent] at h
    exact h
  constructor
  · intro hdup
    rw [hred (by omega)]
    rcases hb : (decide (rt.length ≥ 3) && lastThreeEqual rt) with _ | _
    · simp only [hb, Bool.false_eq_true, if_false]
      unfold dupCount at hdup
      simp [hdup]
    · simp [hb]
  · intro hdup hnt
    rw [hred (by omega)]
    have htool : (decide (rt.length ≥ 3) && lastThreeEqual rt) = false := by
      rcases Bool.eq_false_or_eq_true (lastThreeEqual rt) with h | h
      · have hlt : ¬(rt.length ≥ 3) := fun hge => hnt ⟨hge, h⟩
        simp [hlt]
      · simp [h]
    rw [htool]
    simp only [Bool.false_eq_true, if_false]
    unfold dupCount at hdup
    simp [hdup]

/-- C8 witness: three byte-identical earlier assistant turns trigger the
detector, two do not. -/
theorem c8_witness :
    isStuck [Message.assistant_message (some "a"), Message.assistant_message (some "a"),
      Message.assistant_message (some "a"), Message.assistant_message (some "a")] [] 3
        = true ∧
    isStuck [Message.assistant_message (some "a"), Message.assistant_message (some "a"),
      Message.assistant_message (some "a")] [] 3 = false := by
  constructor
  · exact (c8_theorem
      [Message.assistant_message (some "a"), Message.assistant_message (some "a"),
        Message.assistant_message (some "a")]
      (Message.assistant_message (some "a")) [] "a" (by decide) rfl rfl).1 (by decide)
  · exact (c8_theorem
      [Message.assistant_message (some "a"), Message.assistant_message (some "a")]
      (Message.assistant_message (some "a")) [] "a" (by decide) rfl rfl).2 (by decide)
      (by decide)

/-- C10: fewer than 2 turns, or a last turn with empty or missing text,
makes is_stuck false for every recent-tools window and threshold - the
content guards run before the tool-repetition check. -/
theorem c10_theorem :
    (∀ (msgs : List Message) (rt : List String) (th : Nat),
      msgs.length < 2 → isStuck msgs rt th = false) ∧
    (∀ (msgs : List Message) (last : Message) (rt : List String) (th : Nat),
      msgs.getLast? = some last → strTruthy last.content = false →
      isStuck msgs rt th = false) := by
  constructor
  · intro msgs rt th h
    unfold isStuck
    simp [h]
  · intro msgs last rt th hlast hfalsy
    unfold isStuck
    split
    · rfl
    · rw [hlast]
      dsimp only
      rw [hfalsy]
      simp

/-- C10 witness: a single-message buffer and an empty-text last turn both
report not-stuck even with three identical recorded tool names. -/
theorem c10_witness :
    isStuck [Message.assistant_message (some "a")] ["t", "t", "t"] 3 = false ∧
    isStuck [Message.assistant_message (some "a"), Message.assistant_message none]
      ["t", "t", "t"] 3 = false := by
  constructor
  · exact c10_theorem.1 [Message.assistant_message (some "a")] ["t", "t", "t"] 3
      (by decide)
  · exact c10_theorem.2
      [Message.assistant_message (some "a"), Message.assistant_message none]
      (Message.assistant_message none) ["t", "t", "t"] 3 rfl rfl

/-! ## Helper lemmas: the run state machine -/

/-- Externals where the first step raises. -/
def extThrow : Externals :=
  { step := fun _ => .throw "boom", cancelled := fun _ => false }

/-- Externals where every step completes the run via a special tool. -/
def extFin : Externals :=
  { step := fun _ => .ret .finished "done", cancelled := fun _ => false }

theorem pyCat_data (a b : String) : (pyCat a b).data = a.data ++ b.data := rfl

theorem applyRequest_state (a : AgentB) (r : Option String) :
    (applyRequest a r).state = a.state := by
  unfold applyRequest
  cases r with
  | none => rfl
  | some s =>
    dsimp only
    split
    · rfl
    · rfl

theorem applyRequest_maxSteps (a : AgentB) (r : Option String) :
    (applyRequest a r).maxSteps = a.maxSteps := by
  unfold applyRequest
  cases r with
  | none => rfl
  | some s =>
    dsimp only
    split
    · rfl
    · rfl

theorem applyRequest_currentStep (a : AgentB) (r : Option String) :
    (applyRequest a r).currentStep = a.currentStep := by
  unfold applyRequest
  cases r with
  | none => rfl
  | some s =>
    dsimp only
    split
    · rfl
    · rfl

theorem runBody_state (b : AgentB) (ext : Externals) :
    ((runBody b ext).1).state = b.state := by
  unfold runBody
  cases hL : runLoop ext (b.maxSteps - b.currentStep)
      { state := AgentState.running, currentStep := b.currentStep,
        recentTools := b.recentToolsUsed, results := [] } with
  | normal st => rfl
  | cancelledExit st => rfl
  | raised st e => rfl

theorem runBody_error_shape (b : AgentB) (ext : Externals) (e : RunError)
    (h : (runBody b ext).2 = .error e) : ∃ s, e = .fromStep s := by
  unfold runBody at h
  cases hL : runLoop ext (b.maxSteps - b.currentStep)
      { state := AgentState.running, currentStep := b.currentStep,
        recentTools := b.recentToolsUsed, results := [] } with
  | normal st =>
    rw [hL] at h
    dsimp only at h
    cases h
  | cancelledExit st =>
    rw [hL] at h
    cases h
  | raised st e2 =>
    rw [hL] at h
    injection h with h2
    exact ⟨e2, h2.symm⟩

theorem runB_of_idle (a : AgentB) (req : Option String) (ext : Externals)
    (h : a.state = AgentState.idle) :
    runB a req ext = runBody (applyRequest a req) ext := by
  unfold runB
  rw [if_neg]
  rw [h]
  decide

theorem runB_of_not_idle (a : AgentB) (req : Option String) (ext : Externals)
    (h : a.state ≠ AgentState.idle) :
    runB a req ext = (a, .error (.cannotRun a.state)) := by
  unfold runB
  rw [if_pos]
  cases hs : a.state
  · exact absurd hs h
  · decide
  · decide
  · decide

/-- The finally clause restores the pre-run IDLE state on every exit path:
helper shared by several claims below. -/
theorem runB_preserves_idle (a : AgentB) (req : Option String) (ext : Externals)
    (h : a.state = AgentState.idle) :
    ((runB a req ext).1).state = AgentState.idle := by
  rw [runB_of_idle a req ext h, runBody_state, applyRequest_state, h]

/-- A started run can only raise the re-raised step exception, never the
start-state guard error. -/
theorem runB_error_shape (a : AgentB) (req : Option String) (ext : Externals)
    (e : RunError) (h : a.state = AgentState.idle)
    (he : (runB a req ext).2 = .error e) : ∃ s, e = .fromStep s := by
  rw [runB_of_idle a req ext h] at he
  exact runBody_error_shape _ _ _ he

/-- Structure of a normal loop exit: the results grow by step-line entries
only, and an unchanged loop state means the loop never ran because the fuel
(max_steps - current_step) was 0 or the state was already FINISHED. -/
theorem runLoop_normal_shape (ext : Externals) :
    ∀ (fuel : Nat) (st st2 : LoopSt), runLoop ext fuel st = .normal st2 →
      ∃ extra, st2.results = st.results ++ extra ∧
        (∀ x ∈ extra, ∃ n r, x = stepLine n r) ∧
        (extra = [] → st2 = st ∧ (fuel = 0 ∨ st.state = AgentState.finished)) := by
  intro fuel
  induction fuel with
  | zero =>
    intro st st2 h
    simp only [runLoop] at h
    injection h with h2
    subst h2
    exact ⟨[], by simp, by intro x hx; exact absurd hx (List.not_mem_nil x),
      fun _ => ⟨rfl, Or.inl rfl⟩⟩
  | succ fuel ih =>
    intro st st2 h
    simp only [runLoop] at h
    split at h
    · next hfin =>
      injection h with h2
      subst h2
      refine ⟨[], by simp, by intro x hx; exact absurd hx (List.not_mem_nil x),
        fun _ => ⟨rfl, Or.inr ?_⟩⟩
      have : decide (st.state = AgentState.finished) = true := hfin
      exact of_decide_eq_true this
    · next hfin =>
      split at h
      · exact LoopExit.noConfusion h
      · next hcan =>
        rcases hs : ext.step (st.currentStep + 1) with ⟨ns, r⟩ | e
        · rw [hs] at h
          obtain ⟨extra, he, hall, hnil⟩ := ih _ _ h
          refine ⟨stepLine (st.currentStep + 1) r :: extra, ?_, ?_, ?_⟩
          · rw [he]
            simp
          · intro x hx
            rcases List.mem_cons.mp hx with hx | hx
            · exact ⟨st.currentStep + 1, r, hx⟩
            · exact hall x hx
          · intro habs
            exact absurd habs (by simp)
        · rw [hs] at h
          exact LoopExit.noConfusion h

theorem pyJoin_head_ne (x : String) (xs : List String) (c : Char)
    (hx : x.data.head? = some c) (hN : c ≠ 'N') :
    pyJoin "\n" (x :: xs) ≠ noStepsSentinel := by
  intro hEq
  have hhead : (pyJoin "\n" (x :: xs)).data.head? = some c := by
    cases xs with
    | nil => exact hx
    | cons y ys =>
      have hdef : (pyJoin "\n" (x :: y :: ys)).data =
          x.data ++ ("\n".data ++ (pyJoin "\n" (y :: ys)).data) := rfl
      rw [hdef]
      rcases hxd : x.data with _ | ⟨c0, rest⟩
      · rw [hxd] at hx
        cases hx
      · rw [hxd] at hx
        injection hx with hc
        subst hc
        rfl
  rw [hEq] at hhead
  have : c = 'N' := by
    have hsen : (noStepsSentinel.data.head?) = some 'N' := rfl
    rw [hsen] at hhead
    injection hhead with h2
    exact h2.symm
  exact hN this

theorem stepLine_head (n : Nat) (r : String) :
    (stepLine n r).data.head? = some 'S' := rfl

theorem maxStepsMarker_head (k : Nat) :
    (maxStepsMarker k).data.head? = some 'T' := rfl

theorem pyJoin_singleton (x : String) : pyJoin "\n" [x] = x := rfl

/-- The "No steps executed" sentinel is dead code: a loop that never ran
exits with current_step at or above max_steps, so the marker is appended;
a loop that ran has step lines; a cancelled run returns the cancellation
message. -/
theorem runBody_ne_sentinel (b : AgentB) (ext : Externals) :
    (runBody b ext).2 ≠ .ok noStepsSentinel := by
  unfold runBody
  cases hL : runLoop ext (b.maxSteps - b.currentStep)
      { state := AgentState.running, currentStep := b.currentStep,
        recentTools := b.recentToolsUsed, results := [] } with
  | raised st e =>
    intro h
    cases h
  | cancelledExit st =>
    intro h
    injection h with h2
    exact absurd h2 (by decide)
  | normal st =>
    obtain ⟨extra, he, hall, hnil⟩ := runLoop_normal_shape ext _ _ _ hL
    simp only [List.nil_append] at he
    dsimp only
    by_cases hge : st.currentStep ≥ b.maxSteps
    · rw [if_pos hge, he]
      cases extra with
      | nil =>
        simp only [List.nil_append]
        intro h
        injection h with h2
        rw [show ([maxStepsMarker b.maxSteps].isEmpty) = false from rfl] at h2
        simp only [Bool.false_eq_true, if_false] at h2
        rw [pyJoin_singleton] at h2
        exact pyJoin_head_ne (maxStepsMarker b.maxSteps) [] 'T'
          (maxStepsMarker_head b.maxSteps) (by decide) (by rw [pyJoin_singleton]; exact h2)
      | cons e0 rest =>
        intro h
        injection h with h2
        have hne : ((e0 :: rest) ++ [maxStepsMarker b.maxSteps]).isEmpty = false := rfl
        rw [hne] at h2
        simp only [Bool.false_eq_true, if_false, List.cons_append] at h2
        obtain ⟨n, r, hx⟩ := hall e0 (List.mem_cons_self e0 rest)
        subst hx
        exact pyJoin_head_ne _ _ 'S' (stepLine_head n r) (by decide) h2
    · rw [if_neg hge, he]
      cases extra with
      | nil =>
        obtain ⟨hst, hor⟩ := hnil rfl
        rcases hor with h0 | hfin
        · exfalso
          have : st.currentStep = b.currentStep := by rw [hst]
          omega
        · exfalso
          have : AgentState.running = AgentState.finished := by
            rw [← show st.state = AgentState.running by rw [hst]] at hfin ⊢
            exact hfin
          cases this
      | cons e0 rest =>
        intro h
        injection h with h2
        have hne : ((e0 :: rest) : List String).isEmpty = false := rfl
        rw [hne] at h2
        simp only [Bool.false_eq_true, if_false] at h2
        obtain ⟨n, r, hx⟩ := hall e0 (List.mem_cons_self e0 rest)
        subst hx
        exact pyJoin_head_ne _ _ 'S' (stepLine_head n r) (by decide) h2

/-- Closed form of the loop when every step returns normally in state
RUNNING and no cancellation fires: one step line per fuel unit. -/
theorem runLoop_straight (ext : Externals) (f : Nat → String)
    (hstep : ∀ n, ext.step n = .ret AgentState.running (f n))
    (hcancel : ∀ n, ext.cancelled n = false) :
    ∀ (fuel c : Nat) (rt acc : List String),
      ∃ rt2, runLoop ext fuel
          { state := .running, currentStep := c, recentTools := rt, results := acc } =
        .normal { state := .running
                  currentStep := c + fuel
                  recentTools := rt2
                  results := acc ++ (List.range fuel).map
                    (fun j => stepLine (c + j + 1) (f (c + j + 1))) } := by
  intro fuel
  induction fuel with
  | zero =>
    intro c rt acc
    refine ⟨rt, ?_⟩
    simp [runLoop]
  | succ fuel ih =>
    intro c rt acc
    obtain ⟨rt2, hrec⟩ :=
      ih (c + 1) (updateRecentTools rt (f (c + 1))) (acc ++ [stepLine (c + 1) (f (c + 1))])
    refine ⟨rt2, ?_⟩
    simp only [runLoop]
    rw [if_neg (by decide)]
    rw [if_neg (by rw [hcancel]; exact Bool.false_ne_true)]
    rw [hstep]
    dsimp only
    rw [hrec]
    simp only [LoopExit.normal.injEq, LoopSt.mk.injEq]
    refine ⟨by trivial, by omega, by trivial, ?_⟩
    rw [List.append_assoc]
    congr 1
    rw [List.range_succ_eq_map]
    simp only [List.map_cons, List.map_map]
    rw [List.singleton_append]
    congr 1
    apply List.map_congr_left
    intro j hj
    simp only [Function.comp]
    have hidx : c + 1 + j + 1 = c + (j + 1) + 1 := by omega
    rw [hidx]

/-! ## C2: state after an escaping exception -/

/-- C2 counterexample: an agent whose first step raises.  runB re-raises
the exception, but at that moment the agent state is IDLE, not ERROR: the
finally clause of state_context has overwritten the ERROR set by the except
clause with the saved pre-run state. -/
theorem c2_counterexample :
    (runB ({} : AgentB) Option.none extThrow).2 = .error (.fromStep "boom") ∧
    ((runB ({} : AgentB) Option.none extThrow).1).state = AgentState.idle ∧
    AgentState.idle ≠ AgentState.error := by
  exact ⟨rfl, rfl, by decide⟩

/-- C2 amended: when the loop body raises, the except clause of
state_context sets ERROR and re-raises, but the finally clause then
unconditionally restores the pre-run state, so at the moment run re-raises
the state has been reverted to IDLE - the terminal states (FINISHED or
ERROR) are silently overwritten rather than preserved.  Every exit path of
a started run, the exceptional one included, leaves the agent in IDLE, and
the only exception a started run can re-raise is the step exception. -/
theorem c2_theorem (a : AgentB) (req : Option String) (ext : Externals)
    (h : a.state = AgentState.idle) :
    ((runB a req ext).1).state = AgentState.idle ∧
    (∀ e, (runB a req ext).2 = .error e → ∃ s, e = .fromStep s) := by
  exact ⟨runB_preserves_idle a req ext h,
    fun e he => runB_error_shape a req ext e h he⟩

/-- C2 witness: the throwing agent, concretely. -/
theorem c2_witness :
    ((runB ({} : AgentB) Option.none extThrow).1).state = AgentState.idle ∧
    (∀ e, (runB ({} : AgentB) Option.none extThrow).2 = .error e →
      ∃ s, e = .fromStep s) := by
  exact c2_theorem ({} : AgentB) Option.none extThrow rfl

/-! ## C4: invoking run a second time -/

/-- C4 counterexample: a first run that raises (ends in the ERROR regime of
the claim); the second invocation does not fail with the state guard - it
silently runs again and succeeds, because the finally clause restored IDLE. -/
theorem c4_counterexample :
    (runB ({} : AgentB) Option.none extThrow).2 = .error (.fromStep "boom") ∧
    (runB ((runB ({} : AgentB) Option.none extThrow).1) Option.none extFin).2 =
      .ok (stepLine 2 "done") := by
  exact ⟨rfl, rfl⟩

/-- C4 amended: run does refuse any start state other than IDLE, raising
RuntimeError ("Cannot run agent from state: ...") - but an agent is never
observed in FINISHED or ERROR after run returns, because the finally clause
restores IDLE; hence invoking run a second time after a completed or failed
run does not fail with the guard error: it silently starts the loop again. -/
theorem c4_theorem :
    (∀ (a : AgentB) (req : Option String) (ext : Externals),
      a.state ≠ AgentState.idle →
      runB a req ext = (a, .error (.cannotRun a.state))) ∧
    (∀ (a : AgentB) (req req2 : Option String) (ext ext2 : Externals),
      a.state = AgentState.idle →
      ∀ s, (runB ((runB a req ext).1) req2 ext2).2 ≠ .error (.cannotRun s)) := by
  constructor
  · exact runB_of_not_idle
  · intro a req req2 ext ext2 h s habs
    have hidle := runB_preserves_idle a req ext h
    obtain ⟨s2, hs2⟩ := runB_error_shape _ req2 ext2 _ hidle habs
    cases hs2

/-- C4 witness: a FINISHED agent is refused; a completed run's agent is
re-runnable. -/
theorem c4_witness :
    runB ({ state := AgentState.finished } : AgentB) Option.none extFin =
      (({ state := AgentState.finished } : AgentB),
        Except.error (RunError.cannotRun AgentState.finished)) ∧
    (∀ s, (runB ((runB ({} : AgentB) Option.none extFin).1) Option.none extFin).2 ≠
      .error (.cannotRun s)) := by
  constructor
  · exact c4_theorem.1 ({ state := AgentState.finished } : AgentB) Option.none extFin
      (by decide)
  · exact c4_theorem.2 ({} : AgentB) Option.none Option.none extFin extFin rfl

/-! ## C9: the output contract of run -/

/-- C9 counterexample: an agent already at its step budget.  The loop body
never runs, yet run returns the max-steps marker, not the "No steps
executed" sentinel. -/
theorem c9_counterexample :
    (runB ({ maxSteps := 0 } : AgentB) Option.none extFin).2 =
      .ok (maxStepsMarker 0) ∧
    maxStepsMarker 0 = "Terminated: Reached max steps (0)" ∧
    maxStepsMarker 0 ≠ noStepsSentinel := by
  exact ⟨rfl, rfl, by decide⟩

/-- C9 amended: without cancellation, a run whose steps all return yields
the newline-joined "Step N: <result>" lines with the max-steps marker
appended (not an error) once the budget is exhausted; when the loop body
never ran because current_step is already at max_steps, the marker alone is
returned; and the "No steps executed" sentinel is unreachable on every
invocation, because the loop-never-ran case is exactly the marker case. -/
theorem c9_theorem :
    (∀ (a : AgentB) (req : Option String) (ext : Externals),
      (runB a req ext).2 ≠ .ok noStepsSentinel) ∧
    (∀ (a : AgentB) (req : Option String) (ext : Externals),
      a.state = AgentState.idle → a.maxSteps ≤ a.currentStep →
      (runB a req ext).2 = .ok (maxStepsMarker a.maxSteps)) ∧
    (∀ (a : AgentB) (req : Option String) (ext : Externals) (f : Nat → String),
      a.state = AgentState.idle → a.currentStep = 0 →
      (∀ n, ext.step n = .ret AgentState.running (f n)) →
      (∀ n, ext.cancelled n = false) →
      (runB a req ext).2 = .ok (pyJoin "\n"
        ((List.range a.maxSteps).map (fun j => stepLine (j + 1) (f (j + 1))) ++
          [maxStepsMarker a.maxSteps]))) := by
  refine ⟨?_, ?_, ?_⟩
  · intro a req ext
    by_cases h : a.state = AgentState.idle
    · rw [runB_of_idle a req ext h]
      exact runBody_ne_sentinel _ _
    · rw [runB_of_not_idle a req ext h]
      intro habs
      cases habs
  · intro a req ext h hle
    rw [runB_of_idle a req ext h]
    unfold runBody
    have hfuel : (applyRequest a req).maxSteps - (applyRequest a req).currentStep = 0 := by
      rw [applyRequest_maxSteps, applyRequest_currentStep]
      omega
    rw [hfuel]
    simp only [runLoop]
    have hc : (applyRequest a req).currentStep ≥ (applyRequest a req).maxSteps := by
      rw [applyRequest_maxSteps, applyRequest_currentStep]
      omega
    rw [if_pos hc, applyRequest_maxSteps]
    simp [pyJoin_singleton]
  · intro a req ext f h hcur hstep hcancel
    rw [runB_of_idle a req ext h]
    unfold runBody
    obtain ⟨rt2, hrec⟩ := runLoop_straight ext f hstep hcancel
      ((applyRequest a req).maxSteps - (applyRequest a req).currentStep)
      (applyRequest a req).currentStep (applyRequest a req).recentToolsUsed []
    rw [hrec]
    simp only [applyRequest_maxSteps, applyRequest_currentStep, hcur, Nat.sub_zero,
      Nat.zero_add, List.nil_append, ge_iff_le, le_refl, if_true]
    have hne : (((List.range a.maxSteps).map
        (fun j => stepLine (j + 1) (f (j + 1)))) ++ [maxStepsMarker a.maxSteps]).isEmpty
        = false := by
      cases hr : (List.range a.maxSteps).map (fun j => stepLine (j + 1) (f (j + 1))) with
      | nil => rfl
      | cons x xs => rfl
    rw [hne]
    simp

/-- C9 witness: a two-step straight-line run, concretely. -/
theorem c9_witness :
    (runB ({ maxSteps := 2 } : AgentB) Option.none
        ({ step := fun n => .ret AgentState.running (toString n),
           cancelled := fun _ => false } : Externals)).2 =
      .ok (pyJoin "\n"
        ((List.range 2).map (fun j => stepLine (j + 1) (toString (j + 1))) ++
          [maxStepsMarker 2])) ∧
    (runB ({ maxSteps := 0, currentStep := 0 } : AgentB) Option.none extFin).2 =
      .ok (maxStepsMarker 0) := by
  constructor
  · exact c9_theorem.2.2 ({ maxSteps := 2 } : AgentB) Option.none _ (fun n => toString n)
      rfl rfl (fun n => rfl) (fun n => rfl)
  · exact c9_theorem.2.1 ({ maxSteps := 0, currentStep := 0 } : AgentB) Option.none
      extFin rfl (by decide)

/-! ## C3: model-call errors inside think -/

/-- A ToolCallAgent with the self-review disabled and no pending prompt. -/
def agThink : TCAgent := { adaptive_planning := false }

theorem thinkReviewStage_memory (ag : TCAgent) :
    (thinkReviewStage ag).memory = ag.memory := by
  unfold thinkReviewStage
  split
  · rfl
  · rfl

theorem thinkPromptStage_messages (ag : TCAgent) :
    (thinkPromptStage ag).memory.messages = ag.memory.messages ∨
    ∃ eff, (thinkPromptStage ag).memory.messages =
      ag.memory.messages ++ [Message.user_message eff] := by
  unfold thinkPromptStage
  split
  · right
    exact ⟨_, rfl⟩
  · left
    rfl

/-- C3 counterexample: a model-call failure is NOT caught by think - it
propagates out unchanged, no assistant-role error turn is recorded (the
agent, hence its buffer, is untouched), and think does not return false. -/
theorem c3_counterexample :
    think agThink (Except.error "boom") = (agThink, Except.error "boom") ∧
    ∀ b, think agThink (Except.error "boom") ≠ (agThink, Except.ok b) := by
  constructor
  · rfl
  · intro b h
    exact Except.noConfusion (congrArg Prod.snd h)

/-- C3 amended: the try block of think starts only after the model call, so
an error raised while communicating with the model propagates out of think
exactly as raised; the buffer gains no assistant-role turn on that path
(at most the pending next-step prompt is injected as a user turn before
the call).  Errors in the response post-processing would be caught by the
except clause, but nothing in that region can raise.  The positive
step_review_interval hypothesis keeps the model faithful to Python, where a
zero interval would make the modulo expression itself raise. -/
theorem c3_theorem (ag : TCAgent) (e : String)
    (hrev : 0 < ag.step_review_interval) :
    (think ag (Except.error e)).2 = Except.error e ∧
    ∀ msg ∈ ((think ag (Except.error e)).1).memory.messages,
      msg ∈ ag.memory.messages ∨ msg.role = Role.user := by
  have hpair : think ag (Except.error e) =
      (thinkPromptStage (thinkReviewStage ag), Except.error e) := rfl
  rw [hpair]
  refine ⟨rfl, ?_⟩
  intro msg hmsg
  dsimp only at hmsg
  rcases thinkPromptStage_messages (thinkReviewStage ag) with hp | ⟨eff, hp⟩
  · rw [hp, thinkReviewStage_memory] at hmsg
    exact Or.inl hmsg
  · rw [hp, thinkReviewStage_memory] at hmsg
    rcases List.mem_append.mp hmsg with hmem | hmem
    · exact Or.inl hmem
    · right
      rcases List.mem_singleton.mp hmem with rfl
      rfl

/-- C3 witness: the amended statement at the concrete agent. -/
theorem c3_witness :
    0 < agThink.step_review_interval ∧
    (think agThink (Except.error "x")).2 = Except.error "x" := by
  exact ⟨by decide, (c3_theorem agThink "x" (by decide)).1⟩

/-! ## Helper lemmas: coalescing and roles -/

/-- The roles of a buffer, in order. -/
def rolesOf (msgs : List Message) : List Role := msgs.map Message.role

theorem coalesce_role (p q : Message) : (coalesce p q).role = p.role := by
  unfold coalesce
  dsimp only
  repeat' split
  all_goals rfl

/-- The coalescing branch: texts concatenated with a newline when both are
truthy, importance raised to the max, tool-call lists concatenated when
both are truthy. -/
theorem coalesce_spec (p q : Message)
    (hp : strTruthy p.content = true) (hq : strTruthy q.content = true) :
    (coalesce p q).content = some (pyCat p.contentStr (pyCat "\n" q.contentStr)) ∧
    (coalesce p q).importance = max p.importance q.importance ∧
    (listTruthy p.tool_calls = true → listTruthy q.tool_calls = true →
      (coalesce p q).tool_calls =
        some (p.tool_calls.getD [] ++ q.tool_calls.getD [])) := by
  unfold coalesce
  dsimp only
  rw [if_pos hq, if_pos hp]
  refine ⟨?_, ?_, ?_⟩
  · split
    · split
      · rfl
      · rfl
    · rfl
  · split
    · split
      · rfl
      · rfl
    · rfl
  · intro hptc hqtc
    rw [if_pos hqtc, if_pos hptc]

theorem set_self_of_get? {α : Type} {l : List α} :
    ∀ {i : Nat} {a : α}, l.get? i = some a → l.set i a = l := by
  induction l with
  | nil =>
    intro i a h
    cases h
  | cons x xs ih =>
    intro i a h
    cases i with
    | zero =>
      injection h with h2
      subst h2
      rfl
    | succ n =>
      have : xs.set n a = xs := ih h
      show x :: xs.set n a = x :: xs
      rw [this]

theorem applyShrink_roles (s : Bool) (msgs : List Message) (r : Int) (i : Nat) :
    rolesOf (applyShrink s msgs r i).1 = rolesOf msgs := by
  unfold applyShrink
  rcases h : msgs.get? i with _ | cur
  · rfl
  · dsimp only
    have hset : ∀ c : Option String,
        rolesOf (msgs.set i { cur with content := c }) = rolesOf msgs := by
      intro c
      unfold rolesOf
      rw [List.map_set]
      have : (msgs.map Message.role).get? i = some cur.role := by
        rw [List.get?_map, h]
        rfl
      exact set_self_of_get? this
    split
    · rfl
    · split
      · exact hset _
      · split
        · exact hset _
        · rfl

theorem optFold_roles (s : Bool) (needed : Int) :
    ∀ (cands : List (Nat × Message)) (st : List Message × Int),
      rolesOf (optFold s needed cands st).1 = rolesOf st.1 := by
  intro cands
  induction cands with
  | nil => intro st; rfl
  | cons p rest ih =>
    intro st
    rw [optFold_cons, ih]
    split
    · rfl
    · exact applyShrink_roles s st.1 st.2 p.1

theorem optimizeHistory_roles (m : Memory) :
    rolesOf ((m.optimizeHistory).messages) = rolesOf m.messages := by
  rw [optimizeHistory_messages]
  split
  · rfl
  · exact optFold_roles _ _ _ _

/-! ## C5: the adjacent-role coalescing invariant -/

theorem beq_role_eq (x y : Role) : (x == y) = decide (x = y) := rfl

/-- One add_message call preserves the invariant that no two adjacent
messages share a role. -/
theorem add_message_chain (m : Memory) (msg : Message)
    (hc : List.Chain' (fun a b => a ≠ b) (rolesOf m.messages)) :
    List.Chain' (fun a b => a ≠ b) (rolesOf ((m.add_message msg).messages)) := by
  have hroles : rolesOf ((m.add_message msg).messages) = rolesOf (m.newMessages msg) := by
    rw [add_message_messages]
    split
    · exact optimizeHistory_roles _
    · rfl
  rw [hroles]
  unfold Memory.newMessages
  rcases hl : m.messages.getLast? with _ | last
  · have hnil : m.messages = [] := by
      cases hm : m.messages with
      | nil => rfl
      | cons x xs =>
        rw [hm] at hl
        simp [List.getLast?_concat] at hl
    rw [hnil]
    simp [rolesOf]
  · have hne : m.messages ≠ [] := by
      intro hnil
      rw [hnil] at hl
      cases hl
    have hsplit : m.messages.dropLast ++ [last] = m.messages := by
      have h1 := List.dropLast_concat_getLast hne
      have h2 : m.messages.getLast hne = last := by
        have := List.getLast?_eq_getLast m.messages hne
        rw [hl] at this
        injection this with h3
        exact h3.symm
      rw [← h2]
      exact h1
    dsimp only
    split
    · next hr =>
      have : rolesOf (m.messages.dropLast ++ [coalesce last msg]) =
          rolesOf m.messages := by
        unfold rolesOf
        rw [← hsplit]
        rw [List.map_append, List.map_append]
        simp [coalesce_role]
      rw [this]
      exact hc
    · next hr =>
      have hner : last.role ≠ msg.role := by
        intro habs
        rw [beq_role_eq] at hr
        exact hr (decide_eq_true habs)
      unfold rolesOf
      rw [List.map_append]
      apply List.chain'_append.mpr
      refine ⟨hc, by simp, ?_⟩
      intro x hx y hy
      rw [← hsplit, List.map_append] at hx
      simp only [List.map_cons, List.map_nil] at hx hy
      rw [List.getLast?_concat] at hx
      rw [List.head?_cons] at hy
      rw [Option.mem_def] at hx hy
      injection hx with h3
      injection hy with h4
      rw [← h3, ← h4]
      exact hner

/-- C5: starting from the empty buffer, any sequence of add_message inserts
leaves no two adjacent turns with the same role; a same-role insert is
coalesced into the previous turn - texts joined with a newline, importance
maxed, tool-call lists concatenated - and, when the optimization pass does
not fire, the buffer becomes dropLast ++ [coalesced turn]. -/
theorem c5_theorem :
    (∀ (msgs : List Message),
      List.Chain' (fun a b => a ≠ b)
        (rolesOf ((emptyMemory.add_messages msgs).messages))) ∧
    (∀ (p q : Message), strTruthy p.content = true → strTruthy q.content = true →
      (coalesce p q).content = some (pyCat p.contentStr (pyCat "\n" q.contentStr)) ∧
      (coalesce p q).importance = max p.importance q.importance ∧
      (listTruthy p.tool_calls = true → listTruthy q.tool_calls = true →
        (coalesce p q).tool_calls =
          some (p.tool_calls.getD [] ++ q.tool_calls.getD []))) ∧
    (∀ (m : Memory) (msg last : Message),
      m.messages.getLast? = some last → last.role = msg.role →
      currentLength (m.messages.dropLast ++ [coalesce last msg]) ≤
        m.context_length_limit →
      (m.add_message msg).messages = m.messages.dropLast ++ [coalesce last msg]) := by
  refine ⟨?_, fun p q hp hq => coalesce_spec p q hp hq, ?_⟩
  · intro msgs
    have key : ∀ (l : List Message) (m : Memory),
        List.Chain' (fun a b => a ≠ b) (rolesOf m.messages) →
        List.Chain' (fun a b => a ≠ b) (rolesOf ((m.add_messages l).messages)) := by
      intro l
      induction l with
      | nil => intro m h; exact h
      | cons x xs ih =>
        intro m h
        exact ih (m.add_message x) (add_message_chain m x h)
    exact key msgs emptyMemory (by simp [emptyMemory, rolesOf])
  · intro m msg last hlast hrole hlim
    have hN : m.newMessages msg = m.messages.dropLast ++ [coalesce last msg] := by
      unfold Memory.newMessages
      rw [hlast]
      dsimp only
      rw [if_pos]
      rw [beq_role_eq]
      exact decide_eq_true hrole
    rw [add_message_messages, hN]
    split
    · rw [optimizeHistory_messages]
      rw [show ({ m with messages := m.messages.dropLast ++ [coalesce last msg] } :
        Memory).messages = m.messages.dropLast ++ [coalesce last msg] from rfl]
      rw [if_pos hlim]
    · rfl

/-- C5 witness: two same-role tool turns coalesce into one turn with the
concatenated text (spec Scenario B), and the invariant holds on a concrete
insert sequence. -/
theorem c5_witness :
    (emptyMemory.add_messages
      [Message.tool_message "r1" "t" "call-1", Message.tool_message "r2" "t" "call-2",
        Message.assistant_message (some "a")]).messages.length = 2 ∧
    ((({ emptyMemory with
        messages := [Message.tool_message "r1" "t" "call-1"] } : Memory).add_message
      (Message.tool_message "r2" "t" "call-2")).messages =
        [coalesce (Message.tool_message "r1" "t" "call-1")
          (Message.tool_message "r2" "t" "call-2")]) ∧
    (coalesce (Message.tool_message "r1" "t" "call-1")
        (Message.tool_message "r2" "t" "call-2")).content = some "r1\nr2" := by
  refine ⟨rfl, ?_, ?_⟩
  · exact c5_theorem.2.2
      ({ emptyMemory with messages := [Message.tool_message "r1" "t" "call-1"] })
      (Message.tool_message "r2" "t" "call-2") (Message.tool_message "r1" "t" "call-1")
      rfl rfl (by decide)
  · have h := (c5_theorem.2.1 (Message.tool_message "r1" "t" "call-1")
      (Message.tool_message "r2" "t" "call-2") (by decide) (by decide)).1
    rw [h]
    rfl

/-! ## Helper lemmas: the frame of the eviction pass -/

/-- The fields of a message other than its content. -/
def frameFields (m : Message) :
    Role × Option (List ToolCall) × Option String × Option String × Int :=
  (m.role, m.tool_calls, m.name, m.tool_call_id, m.importance)

theorem applyShrink_map {α : Type} (f : Message → α)
    (hf : ∀ (x : Message) (c : Option String), f { x with content := c } = f x)
    (s : Bool) (msgs : List Message) (r : Int) (i : Nat) :
    (applyShrink s msgs r i).1.map f = msgs.map f := by
  unfold applyShrink
  rcases h : msgs.get? i with _ | cur
  · rfl
  · dsimp only
    have hset : ∀ c : Option String,
        (msgs.set i { cur with content := c }).map f = msgs.map f := by
      intro c
      rw [List.map_set]
      have hm : (msgs.map f).get? i = some (f { cur with content := c }) := by
        rw [List.get?_map, h, hf]
        rfl
      exact set_self_of_get? hm
    split
    · rfl
    · split
      · exact hset _
      · split
        · exact hset _
        · rfl

theorem optFold_map {α : Type} (f : Message → α)
    (hf : ∀ (x : Message) (c : Option String), f { x with content := c } = f x)
    (s : Bool) (needed : Int) :
    ∀ (cands : List (Nat × Message)) (st : List Message × Int),
      (optFold s needed cands st).1.map f = st.1.map f := by
  intro cands
  induction cands with
  | nil => intro st; rfl
  | cons p rest ih =>
    intro st
    rw [optFold_cons, ih]
    split
    · rfl
    · exact applyShrink_map f hf s st.1 st.2 p.1

theorem optimizeHistory_frame (m : Memory) :
    (m.optimizeHistory).messages.map frameFields = m.messages.map frameFields := by
  rw [optimizeHistory_messages]
  split
  · rfl
  · exact optFold_map frameFields (fun x c => rfl) _ _ _ _

theorem applyShrink_get?_ne (s : Bool) (msgs : List Message) (r : Int)
    (i j : Nat) (hne : i ≠ j) :
    ((applyShrink s msgs r i).1).get? j = msgs.get? j := by
  unfold applyShrink
  rcases h : msgs.get? i with _ | cur
  · rfl
  · dsimp only
    split
    · rfl
    · split
      · exact List.get?_set_ne _ _ hne
      · split
        · exact List.get?_set_ne _ _ hne
        · rfl

theorem optFold_get?_not_mem (s : Bool) (needed : Int) :
    ∀ (cands : List (Nat × Message)) (st : List Message × Int) (j : Nat),
      j ∉ cands.map Prod.fst →
      ((optFold s needed cands st).1).get? j = st.1.get? j := by
  intro cands
  induction cands with
  | nil => intro st j _; rfl
  | cons p rest ih =>
    intro st j hj
    rw [List.map_cons] at hj
    have hj1 : p.1 ≠ j := fun habs => hj (habs ▸ List.mem_cons_self _ _)
    have hj2 : j ∉ rest.map Prod.fst := fun habs => hj (List.mem_cons_of_mem _ habs)
    rw [optFold_cons, ih _ j hj2]
    split
    · rfl
    · exact applyShrink_get?_ne s st.1 st.2 p.1 j hj1

theorem mem_insertByImportance (p q : Nat × Message) :
    ∀ (l : List (Nat × Message)), q ∈ insertByImportance p l ↔ q ∈ p :: l := by
  intro l
  induction l with
  | nil => simp [insertByImportance]
  | cons x xs ih =>
    unfold insertByImportance
    split
    · exact Iff.rfl
    · rw [List.mem_cons, ih, List.mem_cons, List.mem_cons, List.mem_cons]
      tauto

theorem mem_sortByImportance (q : Nat × Message) :
    ∀ (l : List (Nat × Message)), q ∈ sortByImportance l ↔ q ∈ l := by
  intro l
  induction l with
  | nil => simp [sortByImportance]
  | cons x xs ih =>
    show q ∈ insertByImportance x (sortByImportance xs) ↔ _
    rw [mem_insertByImportance]
    constructor
    · intro h
      rcases List.mem_cons.mp h with rfl | h2
      · exact List.mem_cons_self _ _
      · exact List.mem_cons_of_mem _ (ih.mp h2)
    · intro h
      rcases List.mem_cons.mp h with rfl | h2
      · exact List.mem_cons_self _ _
      · exact List.mem_cons_of_mem _ (ih.mpr h2)

theorem mem_enumFrom_get? {α : Type} :
    ∀ (l : List α) (n : Nat) (p : Nat × α), p ∈ l.enumFrom n →
      n ≤ p.1 ∧ l.get? (p.1 - n) = some p.2 := by
  intro l
  induction l with
  | nil =>
    intro n p h
    cases h
  | cons x xs ih =>
    intro n p h
    rcases List.mem_cons.mp h with rfl | h2
    · refine ⟨le_refl _, ?_⟩
      simp
    · obtain ⟨hle, hget⟩ := ih (n + 1) p h2
      refine ⟨by omega, ?_⟩
      have hidx : p.1 - n = (p.1 - (n + 1)) + 1 := by omega
      rw [hidx]
      simpa using hget

/-- Every candidate of the eviction pass points at its original message,
has role tool or assistant, and is not preserved. -/
theorem mem_toOptimize (pi : Bool) (msgs : List Message) (p : Nat × Message)
    (hp : p ∈ toOptimize pi msgs) :
    msgs.get? p.1 = some p.2 ∧
    (p.2.role = Role.tool ∨ p.2.role = Role.assistant) ∧
    preservedIdx pi msgs p.1 p.2 = false := by
  unfold toOptimize at hp
  rw [mem_sortByImportance] at hp
  rcases List.mem_flatMap.mp hp with ⟨r, hr, hp2⟩
  unfold roleCandidates at hp2
  rw [mem_sortByImportance] at hp2
  have hfil := List.mem_filter.mp hp2
  obtain ⟨henum, hcond⟩ := hfil
  have hget : msgs.get? p.1 = some p.2 := by
    have := mem_enumFrom_get? msgs 0 p henum
    simpa using this.2
  have hcond2 := hcond
  rw [Bool.and_eq_true] at hcond2
  obtain ⟨hrole, hnp⟩ := hcond2
  have hrole2 : p.2.role = r := of_decide_eq_true hrole
  have hrfil := List.mem_filter.mp hr
  have hror : (r == Role.tool || r == Role.assistant) = true := hrfil.2
  rw [Bool.or_eq_true] at hror
  refine ⟨hget, ?_, ?_⟩
  · rcases hror with h | h
    · exact Or.inl (hrole2.trans (of_decide_eq_true h))
    · exact Or.inr (hrole2.trans (of_decide_eq_true h))
  · rw [Bool.not_eq_true'] at hnp
    exact hnp

/-! ## C6: what the eviction pass may and may not change -/

/-- The crafted tool message of the C6 counterexample: 300 characters, 8
lines, with almost all of the text on the header line. -/
def c6tool : Message :=
  { role := .tool,
    content := some (pyCat "Observed output of cmd "
      (pyCat (String.mk (List.replicate 270 'x')) "\n\n\n\n\n\n\n")),
    importance := 5 }

/-- A buffer over its budget whose only candidates are the crafted tool
message and a short assistant message. -/
def c6mem : Memory :=
  { messages := [c6tool, { role := .assistant, content := some "hi", importance := 5 }],
    context_length_limit := 100 }

/-- C6 counterexample: the eviction pass LENGTHENS the text of a
non-preserved tool turn from 300 to 313 characters - the tool-output
summarizer's header-plus-elision rewrite is longer than the original here,
contradicting "only shortens". -/
theorem c6_counterexample :
    (c6mem.messages.map (fun m => pyLen m.contentStr)) = [300, 2] ∧
    ((c6mem.optimizeHistory).messages.map (fun m => pyLen m.contentStr)) = [313, 2] ∧
    preservedIdx c6mem.preserve_important c6mem.messages 0 c6tool = false ∧
    c6tool.role = Role.tool := by
  refine ⟨rfl, rfl, rfl, rfl⟩

/-- C6 amended: the eviction pass never changes the number of turns; it
never touches any field other than content (role, tool calls, linkage ids
and importance are pointwise unchanged); and it never rewrites the text of
a preserved turn or of a turn whose role is not tool/assistant.  It only
rewrites - but, per the counterexample, does not always shorten - the text
of non-preserved tool/assistant turns. -/
theorem c6_theorem (m : Memory) :
    ((m.optimizeHistory).messages.length = m.messages.length) ∧
    ((m.optimizeHistory).messages.map frameFields = m.messages.map frameFields) ∧
    (∀ i o, m.messages.get? i = some o →
      (preservedIdx m.preserve_important m.messages i o = true ∨
        (o.role ≠ Role.tool ∧ o.role ≠ Role.assistant)) →
      (m.optimizeHistory).messages.get? i = some o) := by
  refine ⟨optimizeHistory_length m, optimizeHistory_frame m, ?_⟩
  intro i o hget hpres
  rw [optimizeHistory_messages]
  split
  · exact hget
  · rw [optFold_get?_not_mem _ _ _ _ i ?_]
    · exact hget
    · intro hmem
      rcases List.mem_map.mp hmem with ⟨p, hp, hp1⟩
      obtain ⟨hg, hrole, hnp⟩ := mem_toOptimize _ _ p hp
      rw [hp1, hget] at hg
      injection hg with ho
      rcases hpres with hpres | ⟨ht, ha⟩
      · rw [hp1, ← ho, hpres] at hnp
        exact Bool.noConfusion hnp
      · rcases hrole with hr | hr
        · rw [← ho] at hr
          exact ht hr
        · rw [← ho] at hr
          exact ha hr

/-- An over-budget buffer whose single turn is the preserved first user
message. -/
def c6userMem : Memory :=
  { messages := [Message.user_message "hello"], context_length_limit := 0 }

/-- C6 witness: the frame theorem at concrete buffers, including the
preserved-turn clause at a preserved first user turn. -/
theorem c6_witness :
    ((c6mem.optimizeHistory).messages.length = c6mem.messages.length) ∧
    ((c6mem.optimizeHistory).messages.map frameFields =
      c6mem.messages.map frameFields) ∧
    (c6userMem.optimizeHistory).messages.get? 0 =
      some (Message.user_message "hello") := by
  refine ⟨(c6_theorem c6mem).1, (c6_theorem c6mem).2.1, ?_⟩
  exact (c6_theorem c6userMem).2.2 0 (Message.user_message "hello") rfl
    (Or.inl (by decide))

/-! ## C7: the eviction loop order and stopping rule -/

theorem pairwise_insertByImportance (p : Nat × Message) (l : List (Nat × Message))
    (h : l.Pairwise (fun a b => a.2.importance ≤ b.2.importance)) :
    (insertByImportance p l).Pairwise
      (fun a b => a.2.importance ≤ b.2.importance) := by
  induction l with
  | nil => simp [insertByImportance]
  | cons x xs ih =>
    rw [List.pairwise_cons] at h
    obtain ⟨hx, hxs⟩ := h
    unfold insertByImportance
    split
    · next hle =>
      rw [List.pairwise_cons]
      refine ⟨?_, ?_⟩
      · intro b hb
        rcases List.mem_cons.mp hb with rfl | hb2
        · exact hle
        · exact le_trans hle (hx b hb2)
      · rw [List.pairwise_cons]
        exact ⟨hx, hxs⟩
    · next hgt =>
      rw [List.pairwise_cons]
      refine ⟨?_, ih hxs⟩
      intro b hb
      rcases List.mem_cons.mp ((mem_insertByImportance p b xs).mp hb) with rfl | h2
      · exact le_of_not_le hgt
      · exact hx b h2

theorem sortByImportance_pairwise (l : List (Nat × Message)) :
    (sortByImportance l).Pairwise (fun a b => a.2.importance ≤ b.2.importance) := by
  induction l with
  | nil => simp [sortByImportance]
  | cons x xs ih => exact pairwise_insertByImportance x _ ih

theorem optFold_skip (s : Bool) (needed : Int) :
    ∀ (cands : List (Nat × Message)) (st : List Message × Int),
      st.2 ≥ needed → optFold s needed cands st = st := by
  intro cands
  induction cands with
  | nil => intro st _; rfl
  | cons p rest ih =>
    intro st h
    rw [optFold_cons, if_pos h]
    exact ih st h

theorem optFold_append (s : Bool) (needed : Int) (l1 l2 : List (Nat × Message))
    (st : List Message × Int) :
    optFold s needed (l1 ++ l2) st =
      optFold s needed l2 (optFold s needed l1 st) := by
  unfold optFold
  exact List.foldl_append _ _ _ _

/-- A buffer exceeding its budget by exactly 1000 characters, all of it in
the preserved first user turn. -/
def c7mem : Memory :=
  { messages := [Message.user_message (String.mk (List.replicate 1100 'x'))],
    context_length_limit := 100 }

/-- C7 counterexample: a buffer over its budget by 1000 characters from
which the eviction pass removes nothing at all (no candidate exists), while
the claim demands that at least 1500 characters be removed. -/
theorem c7_counterexample :
    currentLength c7mem.messages = c7mem.context_length_limit + 1000 ∧
    c7mem.optimizeHistory = c7mem := by
  exact ⟨rfl, rfl⟩

/-- C7 amended: reduction_needed is current length minus budget plus the
500-character safety margin; the candidate list is processed in ascending
importance order; and the loop stops early - as soon as the accumulated
removal reaches reduction_needed, every remaining candidate is skipped.
Removing at least reductionNeeded characters is NOT guaranteed: per the
counterexample, a buffer whose excess sits entirely in preserved turns has
nothing removed. -/
theorem c7_theorem :
    (∀ (pi : Bool) (msgs : List Message),
      (toOptimize pi msgs).Pairwise
        (fun a b => a.2.importance ≤ b.2.importance)) ∧
    (∀ (m : Memory) (pre suf : List (Nat × Message)),
      toOptimize m.preserve_important m.messages = pre ++ suf →
      (optFold m.summarize_tools (reductionNeeded m) pre (m.messages, 0)).2 ≥
        reductionNeeded m →
      optFold m.summarize_tools (reductionNeeded m)
          (toOptimize m.preserve_important m.messages) (m.messages, 0) =
        optFold m.summarize_tools (reductionNeeded m) pre (m.messages, 0)) := by
  constructor
  · intro pi msgs
    exact sortByImportance_pairwise _
  · intro m pre suf heq hge
    rw [heq, optFold_append]
    exact optFold_skip _ _ suf _ hge

/-- The crafted tool message of the C7 witness: 610 characters, 7 lines,
summarizable down to 44 characters. -/
def c7toolContent : String :=
  pyCat "Observed output of cmd x"
    (pyCat "\n\n\n" (pyCat (String.mk (List.replicate 580 'y')) "\n\n\n"))

def c7toolMsg : Message :=
  { role := .tool
    content := some c7toolContent
    importance := 4 }

def c7asstMsg : Message :=
  { role := .assistant
    content := some "yo"
    importance := 5 }

/-- An over-budget buffer with two candidates where the first (lowest
importance) already covers reduction_needed, so the second is skipped. -/
def c7wmem : Memory :=
  { messages := [c7toolMsg, c7asstMsg], context_length_limit := 600 }

/-- C7 witness: the stop rule at a concrete buffer - after the first
candidate the reduction target is met and the remaining candidate is left
untouched. -/
theorem c7_witness :
    toOptimize c7wmem.preserve_important c7wmem.messages =
      [(0, c7toolMsg)] ++ [(1, c7asstMsg)] ∧
    (optFold c7wmem.summarize_tools (reductionNeeded c7wmem) [(0, c7toolMsg)]
      (c7wmem.messages, 0)).2 ≥ reductionNeeded c7wmem ∧
    optFold c7wmem.summarize_tools (reductionNeeded c7wmem)
        (toOptimize c7wmem.preserve_important c7wmem.messages)
        (c7wmem.messages, 0) =
      optFold c7wmem.summarize_tools (reductionNeeded c7wmem) [(0, c7toolMsg)]
        (c7wmem.messages, 0) := by
  refine ⟨rfl, by decide, ?_⟩
  exact c7_theorem.2 c7wmem [(0, c7toolMsg)] [(1, c7asstMsg)] rfl (by decide)

end OMW
